import Mathlib

/-!
Verification of the retrieval-and-escalation pipeline of the RAG support bot.

The development shallowly embeds the pipeline's Python functions:
* `search_similar_docs` (src/chains/chroma_utils.py): nearest-neighbour
  results are filtered by `distance > threshold` (excluding), and when no
  document survives and a `user_id` is supplied a ticket is created via
  `add_question`; every exception inside the body is caught and turned into
  an empty result list.
* `add_documents_to_chroma` (src/chains/chroma_utils.py): encodes the chunk
  texts and upserts `(id, document, embedding)` triples; an encoder failure
  aborts before any upsert.
* `split_text_into_chunks` (src/chains/rag_service.py): delegates the actual
  splitting to the external recursive character splitter and assigns ids
  `chunk_1`, `chunk_2`, … by ordinal position.
* `generate_response_with_gpt` (src/chains/rag_service.py): escapes inputs,
  invokes the external chain, returns a fixed fallback string when the chain
  yields `None`, and raises an HTTP 500 error when the chain itself fails.

Distances are modelled as rationals (the Python floats only ever enter
order comparisons here), external collaborators (chroma query, the
sentence-transformer encoder, the langchain chain, the ticket database) as
explicit function/value parameters, and raised exceptions as `Except`.
-/

namespace RagBot

/-- Result shape of `knowledge_base.query(query_texts=[...])` as consumed by
`search_similar_docs`: an outer list per query text, inner lists of
documents/distances; `metadatas` may be absent (the code defaults it to
`[[]]`). -/
structure QueryResults where
  documents : List (List String)
  distances : List (List ℚ)
  metadatas : Option (List (List String))
deriving Repr, DecidableEq

/-- The `{"text": doc}` dictionaries appended to `processed_docs`. -/
structure ProcessedDoc where
  text : String
deriving Repr, DecidableEq

/-- One invocation of the ticket collaborator `add_question(user_id,
question_text, subject, ...)` (src/db.py). -/
structure TicketCall where
  user_id : Int
  question_text : String
  subject : String
deriving Repr, DecidableEq

/-- Exceptions that can arise inside the `try` block of
`search_similar_docs`: the metadata list indexing raising `IndexError`, or
the awaited `add_question` call failing. -/
inductive SearchError
  | indexError
  | ticketError
deriving Repr, DecidableEq

/-- `results.get('metadatas', [[]])`. -/
def effMetadatas (r : QueryResults) : List (List String) :=
  r.metadatas.getD [[]]

/-- The loop body indexes `results.get('metadatas', [[]])[idx]` for every
element of the inner `zip(doc_list, dist_list)`; this predicate says none of
those accesses raises `IndexError`. -/
def metaOk (r : QueryResults) : Bool :=
  ((r.documents.zip r.distances).enum).all fun p =>
    (p.2.1.zip p.2.2).isEmpty || decide (p.1 < (effMetadatas r).length)

/-- The flattened `(doc, distance)` pairs visited by the nested
`for … in zip(results['documents'], results['distances'])` loops. -/
def flatCandidates (r : QueryResults) : List (String × ℚ) :=
  (r.documents.zip r.distances).flatMap fun p => p.1.zip p.2

/-- The candidates surviving the `if distance > threshold: continue`
filter. -/
def keptCandidates (r : QueryResults) (threshold : ℚ) : List (String × ℚ) :=
  (flatCandidates r).filter fun p => !decide (p.2 > threshold)

/-- The `try` block of `search_similar_docs`: early return on a falsy
`documents`, candidate filtering, and the escalation branch creating one
ticket when nothing survived and a `user_id` is present. The second
component records the `add_question` calls issued; `ticket_fails` says
whether the awaited `add_question` call raises. -/
def search_similar_docs_run (r : QueryResults) (query_text : String)
    (threshold : ℚ) (user_id : Option Int) (subject : String)
    (ticket_fails : Bool) :
    Except SearchError (List ProcessedDoc) × List TicketCall :=
  if r.documents.isEmpty then (.ok [], [])
  else if !metaOk r then (.error .indexError, [])
  else
    let processed := (keptCandidates r threshold).map fun p => ⟨p.1⟩
    if processed.isEmpty then
      match user_id with
      | some u =>
          if ticket_fails then (.error .ticketError, [⟨u, query_text, subject⟩])
          else (.ok [], [⟨u, query_text, subject⟩])
      | none => (.ok processed, [])
    else (.ok processed, [])

/-- `search_similar_docs` (src/chains/chroma_utils.py): the whole body is
wrapped in `try … except Exception: return []`, so every failure of the
body collapses to a normal empty result. -/
def search_similar_docs (r : QueryResults) (query_text : String)
    (threshold : ℚ := 13/10) (user_id : Option Int := none)
    (subject : String := "Новый вопрос") (ticket_fails : Bool := false) :
    List ProcessedDoc × List TicketCall :=
  match search_similar_docs_run r query_text threshold user_id subject ticket_fails with
  | (.ok docs, calls) => (docs, calls)
  | (.error _, calls) => ([], calls)

/-- Failure of the external langchain `chain.invoke` call (the Yandex GPT
collaborator). -/
inductive GptError
  | chainFailure
deriving Repr, DecidableEq

/-- The `fastapi.HTTPException(status_code, detail)` raised by the service
functions. -/
structure HttpError where
  status_code : Nat
  detail : String
deriving Repr, DecidableEq

/-- `html.escape` with its default `quote=True`, as applied to the context
documents and the query text: `&`, `<`, `>`, `"` and the apostrophe
(code point 39) are replaced by their entity references. -/
def html_escape (s : String) : String :=
  String.mk (s.data.flatMap fun c =>
    if c = '&' then "&amp;".data
    else if c = '<' then "&lt;".data
    else if c = '>' then "&gt;".data
    else if c = '"' then "&quot;".data
    else if c = Char.ofNat 39 then "&#x27;".data
    else [c])

/-- The fixed fallback answer returned when the chain yields `None`. -/
def fallback_message : String :=
  "К сожалению, не удалось найти релевантную информацию. Попробуйте переформулировать вопрос."

/-- `generate_response_with_gpt` (src/chains/rag_service.py): escapes the
context documents and the query, invokes the chain, returns the fixed
fallback string when the chain yields `None`, re-raises a fixed
`HTTPException(500)` when the chain raises, and otherwise returns the
chain's response. The external chain is the `chain_invoke` parameter,
receiving the escaped query and escaped context. -/
def generate_response_with_gpt
    (chain_invoke : String → List String → Except GptError (Option String))
    (query_text : String) (context : List String) (token_limit : Nat := 100) :
    Except HttpError String :=
  let escaped_context := context.map html_escape
  let escaped_query_text := html_escape query_text
  let _ := token_limit
  match chain_invoke escaped_query_text escaped_context with
  | .error _ => .error ⟨500, "Ошибка при обработке запроса к GPT"⟩
  | .ok none => .ok fallback_message
  | .ok (some response) => .ok response

/-- Errors of the sentence-transformer encoder (`model.encode`), raised by
the embedding provider. -/
inductive EmbeddingError
  | providerFailure
deriving Repr, DecidableEq

/-- One chroma index entry, as written by
`knowledge_base.upsert(ids=…, documents=…, embeddings=…)`. -/
structure Entry where
  id : String
  document : String
  embedding : List ℚ
deriving Repr, DecidableEq

/-- The `{"id": …, "text": …}` chunk dictionaries produced by
`split_text_into_chunks`. -/
structure Chunk where
  id : String
  text : String
deriving Repr, DecidableEq

/-- Chroma upsert of a single entry: overwrite every entry of the same id
when one exists, append otherwise. -/
def upsertOne (st : List Entry) (e : Entry) : List Entry :=
  if st.any fun x => x.id = e.id then
    st.map fun x => if x.id = e.id then e else x
  else st ++ [e]

/-- Chroma bulk upsert: entries are applied in order. -/
def upsertBatch (st : List Entry) (b : List Entry) : List Entry :=
  b.foldl upsertOne st

/-- The `(id, document, embedding)` triples passed to `upsert`, paired
positionally. -/
def mkEntries (chunks : List Chunk) (embeddings : List (List ℚ)) : List Entry :=
  (chunks.zip embeddings).map fun p => ⟨p.1.id, p.1.text, p.2⟩

/-- `add_documents_to_chroma` (src/chains/chroma_utils.py): encode the chunk
texts; on encoder failure, log and return without touching the collection;
otherwise validate that every embedding is a non-empty list and upsert,
skipping the upsert when any embedding is invalid. Returns the resulting
collection contents. -/
def add_documents_to_chroma
    (encode : List String → Except EmbeddingError (List (List ℚ)))
    (knowledge_base : List Entry) (chunks : List Chunk) : List Entry :=
  let documents := chunks.map fun c => c.text
  match encode documents with
  | .error _ => knowledge_base
  | .ok embeddings =>
      if embeddings.all fun e => !e.isEmpty then
        upsertBatch knowledge_base (mkEntries chunks embeddings)
      else knowledge_base

/-- `split_text_into_chunks` (src/chains/rag_service.py): the recursive
character splitter (external langchain collaborator, the `splitter`
parameter applied to text, chunk size and overlap) produces the chunk
texts; ids `chunk_1`, `chunk_2`, … are assigned by ordinal position. -/
def split_text_into_chunks (splitter : String → Nat → Nat → List String)
    (text : String) (chunk_size : Nat := 500) (chunk_overlap : Nat := 70) :
    List Chunk :=
  let chunks := splitter text chunk_size chunk_overlap
  chunks.enum.map fun p => ⟨"chunk_" ++ toString (p.1 + 1), p.2⟩

/-- Replacing by-id with entry `e`: the elementwise effect of an upsert when
the id is already present. -/
def replaceEntry (e x : Entry) : Entry :=
  if x.id = e.id then e else x

/-- The cumulative elementwise effect of upserting a whole batch over an
entry whose id is already present: the last batch entry with a matching id
wins. -/
def overwriteAll (b : List Entry) (x : Entry) : Entry :=
  b.foldl (fun acc e => if acc.id = e.id then e else acc) x

/-- Some entry of the collection carries id `i`. -/
def hasId (st : List Entry) (i : String) : Prop :=
  ∃ x ∈ st, x.id = i

/-! ## Theorems -/

/-- The documents returned by `search_similar_docs` are always exactly the
kept candidates (when nothing passes the threshold, the returned empty list
coincides with the empty kept list; all failure branches also return an
empty list, matching the then-empty kept list or the early-return case). -/
theorem search_similar_docs_fst (r : QueryResults) (q : String) (t : ℚ)
    (u : Option Int) (s : String) (tf : Bool) :
    (search_similar_docs r q t u s tf).1 =
      if r.documents.isEmpty then []
      else if !metaOk r then []
      else (keptCandidates r t).map fun p => ⟨p.1⟩ := by
  unfold search_similar_docs search_similar_docs_run
  by_cases hd : r.documents.isEmpty
  · simp [hd]
  · by_cases hm : metaOk r
    · by_cases hk : ((keptCandidates r t).map fun p => (⟨p.1⟩ : ProcessedDoc)).isEmpty
      · rcases u with _ | u
        · simp [hd, hm, hk]
        · cases tf <;>
            simp_all [List.isEmpty_iff]
      · simp [hd, hm, hk]
    · simp [hd, hm]

theorem replaceEntry_id (e x : Entry) : (replaceEntry e x).id = x.id := by
  unfold replaceEntry
  split
  · next h => exact h.symm
  · rfl

theorem overwriteAll_cons (a : Entry) (b : List Entry) (x : Entry) :
    overwriteAll (a :: b) x = overwriteAll b (replaceEntry a x) := rfl

theorem any_id_eq (st : List Entry) (i : String) :
    (st.any fun x => x.id = i) = true ↔ hasId st i := by
  simp [hasId, List.any_eq_true]

theorem hasId_map_replace (st : List Entry) (e : Entry) (i : String) :
    hasId (st.map (replaceEntry e)) i ↔ hasId st i := by
  unfold hasId
  constructor
  · rintro ⟨x, hx, hid⟩
    rcases List.mem_map.1 hx with ⟨y, hy, rfl⟩
    exact ⟨y, hy, (replaceEntry_id e y) ▸ hid⟩
  · rintro ⟨y, hy, hid⟩
    exact ⟨replaceEntry e y, List.mem_map_of_mem _ hy, (replaceEntry_id e y).trans hid⟩

theorem upsertOne_of_hasId {st : List Entry} {e : Entry} (h : hasId st e.id) :
    upsertOne st e = st.map (replaceEntry e) := by
  have hb : (st.any fun x => x.id = e.id) = true := (any_id_eq st e.id).2 h
  simp [upsertOne, hb, replaceEntry]

theorem upsertOne_of_not_hasId {st : List Entry} {e : Entry} (h : ¬ hasId st e.id) :
    upsertOne st e = st ++ [e] := by
  have hb : (st.any fun x => x.id = e.id) = false := by
    rw [Bool.eq_false_iff]
    intro hc
    exact h ((any_id_eq st e.id).1 hc)
  simp [upsertOne, hb]

theorem hasId_upsertOne (st : List Entry) (e : Entry) (i : String) :
    hasId (upsertOne st e) i ↔ hasId st i ∨ i = e.id := by
  by_cases h : hasId st e.id
  · rw [upsertOne_of_hasId h, hasId_map_replace]
    constructor
    · exact Or.inl
    · rintro (hi | rfl)
      · exact hi
      · exact h
  · rw [upsertOne_of_not_hasId h]
    constructor
    · rintro ⟨x, hx, rfl⟩
      rcases List.mem_append.1 hx with h1 | h2
      · exact Or.inl ⟨x, h1, rfl⟩
      · rcases List.mem_singleton.1 h2 with rfl
        exact Or.inr rfl
    · rintro (⟨x, hx, rfl⟩ | rfl)
      · exact ⟨x, List.mem_append_left _ hx, rfl⟩
      · exact ⟨e, List.mem_append_right _ (List.mem_singleton_self e), rfl⟩

theorem hasId_upsertBatch (st : List Entry) (b : List Entry) (i : String) :
    hasId (upsertBatch st b) i ↔ hasId st i ∨ ∃ e ∈ b, e.id = i := by
  induction b generalizing st with
  | nil => simp [upsertBatch]
  | cons a rest ih =>
      rw [show upsertBatch st (a :: rest) = upsertBatch (upsertOne st a) rest from rfl,
        ih, hasId_upsertOne]
      constructor
      · rintro ((h | rfl) | ⟨e, he, rfl⟩)
        · exact Or.inl h
        · exact Or.inr ⟨a, List.mem_cons_self a rest, rfl⟩
        · exact Or.inr ⟨e, List.mem_cons_of_mem _ he, rfl⟩
      · rintro (h | ⟨e, he, rfl⟩)
        · exact Or.inl (Or.inl h)
        · rcases List.mem_cons.1 he with rfl | hr
          · exact Or.inl (Or.inr rfl)
          · exact Or.inr ⟨e, hr, rfl⟩

theorem upsertBatch_of_all_hasId (b : List Entry) (st : List Entry)
    (h : ∀ e ∈ b, hasId st e.id) :
    upsertBatch st b = st.map (overwriteAll b) := by
  induction b generalizing st with
  | nil =>
      rw [show st.map (overwriteAll []) = st.map id from
        List.map_congr_left fun a _ => rfl, List.map_id]
      rfl
  | cons a rest ih =>
      have ha : hasId st a.id := h a (List.mem_cons_self a rest)
      have hrest : ∀ e ∈ rest, hasId (st.map (replaceEntry a)) e.id := fun e he =>
        (hasId_map_replace st a e.id).2 (h e (List.mem_cons_of_mem _ he))
      calc upsertBatch st (a :: rest)
          = upsertBatch (upsertOne st a) rest := rfl
        _ = upsertBatch (st.map (replaceEntry a)) rest := by rw [upsertOne_of_hasId ha]
        _ = (st.map (replaceEntry a)).map (overwriteAll rest) := ih _ hrest
        _ = st.map (overwriteAll rest ∘ replaceEntry a) := by rw [List.map_map]
        _ = st.map (overwriteAll (a :: rest)) :=
            List.map_congr_left fun x _ => (overwriteAll_cons a rest x).symm

theorem overwriteAll_of_no_occ (b : List Entry) (y : Entry)
    (h : ¬ ∃ e ∈ b, e.id = y.id) : overwriteAll b y = y := by
  induction b generalizing y with
  | nil => rfl
  | cons a rest ih =>
      have ha : ¬ a.id = y.id := fun hc => h ⟨a, List.mem_cons_self a rest, hc⟩
      rw [overwriteAll_cons,
        show replaceEntry a y = y from by
          unfold replaceEntry
          exact if_neg fun hc => ha hc.symm]
      exact ih y fun hc => by
        rcases hc with ⟨e, he, hid⟩
        exact h ⟨e, List.mem_cons_of_mem _ he, hid⟩

theorem overwriteAll_congr (b : List Entry) (y z : Entry) (hyz : y.id = z.id)
    (hocc : ∃ e ∈ b, e.id = y.id) : overwriteAll b y = overwriteAll b z := by
  induction b generalizing y z with
  | nil =>
      rcases hocc with ⟨e, he, _⟩
      exact absurd he (List.not_mem_nil e)
  | cons a rest ih =>
      rw [overwriteAll_cons, overwriteAll_cons]
      by_cases hya : y.id = a.id
      · have hza : z.id = a.id := hyz.symm.trans hya
        rw [show replaceEntry a y = a from by unfold replaceEntry; exact if_pos hya,
          show replaceEntry a z = a from by unfold replaceEntry; exact if_pos hza]
      · have hza : ¬ z.id = a.id := fun hc => hya (hyz.trans hc)
        rw [show replaceEntry a y = y from by unfold replaceEntry; exact if_neg hya,
          show replaceEntry a z = z from by unfold replaceEntry; exact if_neg hza]
        refine ih y z hyz ?_
        rcases hocc with ⟨e, he, hid⟩
        rcases List.mem_cons.1 he with rfl | hr
        · exact absurd hid.symm hya
        · exact ⟨e, hr, hid⟩

theorem mem_upsertOne_of_ne {x : Entry} {st : List Entry} {e : Entry}
    (hx : x ∈ upsertOne st e) (hne : x.id ≠ e.id) : x ∈ st := by
  by_cases h : hasId st e.id
  · rw [upsertOne_of_hasId h] at hx
    rcases List.mem_map.1 hx with ⟨y, hy, rfl⟩
    by_cases hy2 : y.id = e.id
    · exfalso
      apply hne
      simp [replaceEntry, hy2]
    · simpa [replaceEntry, hy2] using hy
  · rw [upsertOne_of_not_hasId h] at hx
    rcases List.mem_append.1 hx with h1 | h2
    · exact h1
    · rcases List.mem_singleton.1 h2 with rfl
      exact absurd rfl hne

theorem mem_upsertOne_of_eq {x : Entry} {st : List Entry} {e : Entry}
    (hx : x ∈ upsertOne st e) (hid : x.id = e.id) : x = e := by
  by_cases h : hasId st e.id
  · rw [upsertOne_of_hasId h] at hx
    rcases List.mem_map.1 hx with ⟨y, hy, rfl⟩
    by_cases hy2 : y.id = e.id
    · simp [replaceEntry, hy2]
    · exact absurd ((replaceEntry_id e y).symm.trans hid) hy2
  · rw [upsertOne_of_not_hasId h] at hx
    rcases List.mem_append.1 hx with h1 | h2
    · exact absurd ⟨x, h1, hid⟩ h
    · exact List.mem_singleton.1 h2

theorem mem_upsertBatch_of_no_occ {x : Entry} {b : List Entry} :
    ∀ {st : List Entry}, x ∈ upsertBatch st b → (¬ ∃ e ∈ b, e.id = x.id) → x ∈ st := by
  induction b with
  | nil => intro st hx _; exact hx
  | cons a rest ih =>
      intro st hx h
      have hrest : ¬ ∃ e ∈ rest, e.id = x.id := fun hc => by
        rcases hc with ⟨e, he, hid⟩
        exact h ⟨e, List.mem_cons_of_mem _ he, hid⟩
      have hx1 : x ∈ upsertOne st a := ih hx hrest
      have hna : x.id ≠ a.id := fun hc => h ⟨a, List.mem_cons_self a rest, hc.symm⟩
      exact mem_upsertOne_of_ne hx1 hna

theorem mem_upsertBatch_fix (b : List Entry) :
    ∀ (st : List Entry), ∀ x ∈ upsertBatch st b, overwriteAll b x = x := by
  induction b with
  | nil => intro st x _; rfl
  | cons a rest ih =>
      intro st x hx
      rw [overwriteAll_cons]
      by_cases hxa : x.id = a.id
      · rw [show replaceEntry a x = a from by unfold replaceEntry; exact if_pos hxa]
        by_cases hocc : ∃ e ∈ rest, e.id = a.id
        · rw [overwriteAll_congr rest a x hxa.symm hocc]
          exact ih (upsertOne st a) x hx
        · rw [overwriteAll_of_no_occ rest a hocc]
          have hnocc : ¬ ∃ e ∈ rest, e.id = x.id := fun hc => by
            rcases hc with ⟨e, he, hid⟩
            exact hocc ⟨e, he, hid.trans hxa⟩
          exact (mem_upsertOne_of_eq (mem_upsertBatch_of_no_occ hx hnocc) hxa).symm
      · rw [show replaceEntry a x = x from by unfold replaceEntry; exact if_neg hxa]
        exact ih (upsertOne st a) x hx

/-- Upserting the same batch a second time leaves the collection exactly as
after the first upsert. -/
theorem upsertBatch_idem (st : List Entry) (b : List Entry) :
    upsertBatch (upsertBatch st b) b = upsertBatch st b := by
  have hall : ∀ e ∈ b, hasId (upsertBatch st b) e.id := fun e he =>
    (hasId_upsertBatch st b e.id).2 (Or.inr ⟨e, he, rfl⟩)
  rw [upsertBatch_of_all_hasId b (upsertBatch st b) hall]
  calc (upsertBatch st b).map (overwriteAll b)
      = (upsertBatch st b).map id :=
        List.map_congr_left fun x hx => mem_upsertBatch_fix b st x hx
    _ = upsertBatch st b := List.map_id _

/-- Running the same ingestion call twice yields the same collection as
running it once, whatever the encoder does. -/
theorem add_documents_to_chroma_idem
    (encode : List String → Except EmbeddingError (List (List ℚ)))
    (st : List Entry) (chunks : List Chunk) :
    add_documents_to_chroma encode (add_documents_to_chroma encode st chunks) chunks =
      add_documents_to_chroma encode st chunks := by
  unfold add_documents_to_chroma
  cases h : encode (chunks.map fun c => c.text) with
  | error e => simp [h]
  | ok embs =>
      by_cases hv : (embs.all fun e => !e.isEmpty) = true
      · simp [h, hv, upsertBatch_idem]
      · simp [h, hv]

/-! ## Claim theorems -/

/-- Claim C1: escalation exclusivity — for a well-formed single-query result
with a supplied user, either some candidate passes the threshold and the
call returns those documents with no ticket-creation call, or none passes
and the call returns `[]` having issued exactly one ticket-creation call
carrying the original query text and the subject. -/
theorem escalation_exclusivity (r : QueryResults) (q : String) (t : ℚ)
    (u : Int) (s : String) (tf : Bool) (ds : List String)
    (hd : r.documents = [ds]) (hm : metaOk r = true) :
    (keptCandidates r t ≠ [] →
      search_similar_docs r q t (some u) s tf =
        ((keptCandidates r t).map fun p => ⟨p.1⟩, [])) ∧
    (keptCandidates r t = [] →
      search_similar_docs r q t (some u) s tf = ([], [⟨u, q, s⟩])) ∧
    (((search_similar_docs r q t (some u) s tf).1 ≠ [] ∧
        (search_similar_docs r q t (some u) s tf).2 = []) ∨
      ((search_similar_docs r q t (some u) s tf).1 = [] ∧
        ((search_similar_docs r q t (some u) s tf).2).length = 1)) := by
  have hde : r.documents.isEmpty = false := by simp [hd]
  by_cases hk : keptCandidates r t = []
  · refine ⟨fun hne => absurd hk hne, fun _ => ?_, ?_⟩
    · unfold search_similar_docs search_similar_docs_run
      cases tf <;> simp [hde, hm, hk]
    · right
      unfold search_similar_docs search_similar_docs_run
      cases tf <;> simp [hde, hm, hk]
  · have hmain : search_similar_docs r q t (some u) s tf =
        ((keptCandidates r t).map fun p => ⟨p.1⟩, []) := by
      unfold search_similar_docs search_similar_docs_run
      have hne : ((keptCandidates r t).map fun p => (⟨p.1⟩ : ProcessedDoc)).isEmpty = false := by
        simp [List.isEmpty_iff, hk]
      simp [hde, hm, hne]
    refine ⟨fun _ => hmain, fun he => absurd he hk, Or.inl ?_⟩
    rw [hmain]
    exact ⟨by simpa [List.map_eq_nil_iff] using hk, rfl⟩

/-- Witness for C1: one candidate at distance 2, threshold 1, user 7 — no
candidate passes, so the result is `[]` with exactly one ticket call. -/
theorem escalation_exclusivity_witness :
    (keptCandidates ⟨[["a"]], [[2]], some [[]]⟩ 1 ≠ [] →
      search_similar_docs ⟨[["a"]], [[2]], some [[]]⟩ "q" 1 (some 7) "Новый вопрос" false =
        ((keptCandidates ⟨[["a"]], [[2]], some [[]]⟩ 1).map fun p => ⟨p.1⟩, [])) ∧
    (keptCandidates ⟨[["a"]], [[2]], some [[]]⟩ 1 = [] →
      search_similar_docs ⟨[["a"]], [[2]], some [[]]⟩ "q" 1 (some 7) "Новый вопрос" false =
        ([], [⟨7, "q", "Новый вопрос"⟩])) ∧
    (((search_similar_docs ⟨[["a"]], [[2]], some [[]]⟩ "q" 1 (some 7) "Новый вопрос" false).1 ≠ [] ∧
        (search_similar_docs ⟨[["a"]], [[2]], some [[]]⟩ "q" 1 (some 7) "Новый вопрос" false).2 = []) ∨
      ((search_similar_docs ⟨[["a"]], [[2]], some [[]]⟩ "q" 1 (some 7) "Новый вопрос" false).1 = [] ∧
        ((search_similar_docs ⟨[["a"]], [[2]], some [[]]⟩ "q" 1 (some 7) "Новый вопрос" false).2).length = 1)) :=
  escalation_exclusivity ⟨[["a"]], [[2]], some [[]]⟩ "q" 1 7 "Новый вопрос" false ["a"]
    rfl (by decide)

/-- Claim C2: the threshold boundary is inclusive — a retrieved candidate is
kept iff its distance is `≤ threshold` (strictly greater is excluded, exactly
equal is returned), and the documents `search_similar_docs` returns are
exactly the kept candidates. -/
theorem threshold_boundary_inclusive (r : QueryResults) (t : ℚ) (q : String)
    (u : Option Int) (s : String) (tf : Bool)
    (p : String × ℚ) (hp : p ∈ flatCandidates r) :
    (p ∈ keptCandidates r t ↔ p.2 ≤ t) ∧
    (r.documents.isEmpty = false → metaOk r = true →
      (search_similar_docs r q t u s tf).1 =
        (keptCandidates r t).map fun c => ⟨c.1⟩) := by
  constructor
  · simp [keptCandidates, List.mem_filter, hp, not_lt]
  · intro hd hm
    simp [search_similar_docs_fst, hd, hm]

/-- Witness for C2, spec scenario C: one entry at distance 2 from the query;
with `threshold = 2` the candidate is kept (boundary inclusive) and is the
one document returned. -/
theorem threshold_boundary_inclusive_witness :
    (("d", (2 : ℚ)) ∈ keptCandidates ⟨[["d"]], [[2]], some [[]]⟩ 2 ↔ (2 : ℚ) ≤ 2) ∧
    ((⟨[["d"]], [[2]], some [[]]⟩ : QueryResults).documents.isEmpty = false →
      metaOk ⟨[["d"]], [[2]], some [[]]⟩ = true →
      (search_similar_docs ⟨[["d"]], [[2]], some [[]]⟩ "q" 2 none "s" false).1 =
        (keptCandidates ⟨[["d"]], [[2]], some [[]]⟩ 2).map fun c => ⟨c.1⟩) :=
  threshold_boundary_inclusive ⟨[["d"]], [[2]], some [[]]⟩ 2 "q" none "s" false
    ("d", 2) (by decide)

/-- Claim C3: empty results are not an error — when the single-query result
carries no candidate below the threshold (in particular when the index is
empty and the inner lists are empty), the function returns the empty list
(a normal value, the body's exceptions all being caught), and that empty
list triggers exactly one escalation call when a `user_id` is present. -/
theorem empty_results_not_error (r : QueryResults) (q : String) (t : ℚ)
    (s : String) (tf : Bool) (u : Int) (ds : List String)
    (hd : r.documents = [ds]) (hm : metaOk r = true)
    (hk : keptCandidates r t = []) :
    search_similar_docs r q t (some u) s tf = ([], [⟨u, q, s⟩]) ∧
    search_similar_docs r q t none s tf = ([], []) := by
  have hde : r.documents.isEmpty = false := by simp [hd]
  unfold search_similar_docs search_similar_docs_run
  cases tf <;> simp [hde, hm, hk]

/-- Witness for C3: an empty inner result list (empty vector index) yields
`[]` and a single ticket call for user 7. -/
theorem empty_results_not_error_witness :
    search_similar_docs ⟨[[]], [[]], some [[]]⟩ "q" (13/10) (some 7) "Новый вопрос" false
        = ([], [⟨7, "q", "Новый вопрос"⟩]) ∧
    search_similar_docs ⟨[[]], [[]], some [[]]⟩ "q" (13/10) none "Новый вопрос" false
        = ([], []) :=
  empty_results_not_error ⟨[[]], [[]], some [[]]⟩ "q" (13/10) "Новый вопрос" false 7 []
    rfl (by decide) (by decide)

/-- Claim C4: threshold monotonicity — for a fixed query and index state,
`t1 ≤ t2` implies the retrieval with `t1` returns at most as many documents
as the retrieval with `t2`. -/
theorem threshold_monotone (r : QueryResults) (q : String) (u : Option Int)
    (s : String) (tf : Bool) (t1 t2 : ℚ) (h : t1 ≤ t2) :
    ((search_similar_docs r q t1 u s tf).1).length ≤
      ((search_similar_docs r q t2 u s tf).1).length := by
  rw [search_similar_docs_fst, search_similar_docs_fst]
  by_cases hd : r.documents.isEmpty
  · simp [hd]
  · by_cases hm : metaOk r
    · simp only [hd, hm, Bool.not_true, if_false, if_true, Bool.false_eq_true]
      rw [List.length_map, List.length_map]
      refine List.Sublist.length_le (List.monotone_filter_right _ ?_)
      intro a ha
      simp only [Bool.not_eq_true', decide_eq_false_iff_not, not_lt] at ha ⊢
      exact ha.trans h
    · simp [hd, hm]

/-- Witness for C4 at thresholds 1 ≤ 2 on a one-candidate index. -/
theorem threshold_monotone_witness :
    (1 : ℚ) ≤ 2 ∧
    ((search_similar_docs ⟨[["d"]], [[2]], some [[]]⟩ "q" 1 none "s" false).1).length ≤
      ((search_similar_docs ⟨[["d"]], [[2]], some [[]]⟩ "q" 2 none "s" false).1).length :=
  ⟨by norm_num,
   threshold_monotone ⟨[["d"]], [[2]], some [[]]⟩ "q" none "s" false 1 2 (by norm_num)⟩

/-- Counterexample to C5 as stated: when the chain collaborator fails,
`generate_response_with_gpt` does not return the fixed fallback string —
it raises `HTTPException(500, …)`, which is fatal to the request. -/
theorem generation_failure_raises_counterexample :
    generate_response_with_gpt (fun _ _ => .error .chainFailure) "q" [] 100 =
      .error ⟨500, "Ошибка при обработке запроса к GPT"⟩ ∧
    generate_response_with_gpt (fun _ _ => .error .chainFailure) "q" [] 100 ≠
      .ok fallback_message := by
  exact ⟨rfl, fun h => Except.noConfusion h⟩

/-- Claim C5 (amended): when the chain returns `None`, the function returns
the fixed fallback string asking the user to rephrase; when the chain
raises, the function raises `HTTPException(500)` with a fixed message (the
raw collaborator error text is not propagated, but the failure is fatal to
the request); otherwise the chain's response is returned. -/
theorem generation_failure_behaviour (g : Except GptError (Option String))
    (q : String) (ctx : List String) (tl : Nat) :
    generate_response_with_gpt (fun _ _ => g) q ctx tl =
      match g with
      | .error _ => .error ⟨500, "Ошибка при обработке запроса к GPT"⟩
      | .ok none => .ok fallback_message
      | .ok (some response) => .ok response := by
  cases g with
  | error e => rfl
  | ok o => cases o <;> rfl

/-- Claim C6: ingestion atomicity under embedding failure — when the
encoder fails on the batch's chunk texts, `add_documents_to_chroma` returns
the collection unchanged (the failing branch returns before any upsert). -/
theorem embedding_failure_aborts
    (encode : List String → Except EmbeddingError (List (List ℚ)))
    (st : List Entry) (chunks : List Chunk) (err : EmbeddingError)
    (h : encode (chunks.map fun c => c.text) = .error err) :
    add_documents_to_chroma encode st chunks = st := by
  unfold add_documents_to_chroma
  simp [h]

/-- Witness for C6: an always-failing encoder leaves a concrete collection
exactly as it was. -/
theorem embedding_failure_aborts_witness :
    add_documents_to_chroma (fun _ => .error .providerFailure)
      [⟨"chunk_1", "old", [1]⟩] [⟨"chunk_1", "new"⟩] = [⟨"chunk_1", "old", [1]⟩] :=
  embedding_failure_aborts (fun _ => .error .providerFailure)
    [⟨"chunk_1", "old", [1]⟩] [⟨"chunk_1", "new"⟩] .providerFailure rfl

/-- Claim C7: ingestion idempotence — `split_text_into_chunks` assigns ids
`chunk_1`, `chunk_2`, … by ordinal position (deterministic for a fixed
splitter, text and parameters), and ingesting the same document twice via
`add_documents_to_chroma` leaves exactly the collection produced by
ingesting it once (upsert overwrites the colliding ids). -/
theorem ingestion_idempotent (splitter : String → Nat → Nat → List String)
    (text : String) (chunk_size chunk_overlap : Nat)
    (encode : List String → Except EmbeddingError (List (List ℚ)))
    (st : List Entry) :
    ((split_text_into_chunks splitter text chunk_size chunk_overlap).map (fun c => c.id) =
      (List.range (splitter text chunk_size chunk_overlap).length).map
        fun i => "chunk_" ++ toString (i + 1)) ∧
    add_documents_to_chroma encode
        (add_documents_to_chroma encode st
          (split_text_into_chunks splitter text chunk_size chunk_overlap))
        (split_text_into_chunks splitter text chunk_size chunk_overlap) =
      add_documents_to_chroma encode st
        (split_text_into_chunks splitter text chunk_size chunk_overlap) := by
  constructor
  · unfold split_text_into_chunks
    rw [List.map_map]
    rw [show ((fun c : Chunk => c.id) ∘
          fun p : Nat × String => (⟨"chunk_" ++ toString (p.1 + 1), p.2⟩ : Chunk)) =
        (fun i => "chunk_" ++ toString (i + 1)) ∘ Prod.fst from rfl]
    rw [← List.map_map, List.enum_map_fst]
  · exact add_documents_to_chroma_idem encode st _

/-- Counterexample to C9 as stated: a failing ticket-creation call is not
surfaced — the `try` body signals the failure, but `search_similar_docs`
returns the same normal `([], one call)` value as when the call succeeds. -/
theorem ticket_failure_swallowed_counterexample :
    (search_similar_docs_run ⟨[["a"]], [[2]], some [[]]⟩ "q" 1 (some 5) "s" true).1 =
      .error .ticketError ∧
    search_similar_docs ⟨[["a"]], [[2]], some [[]]⟩ "q" 1 (some 5) "s" true =
      ([], [⟨5, "q", "s"⟩]) ∧
    search_similar_docs ⟨[["a"]], [[2]], some [[]]⟩ "q" 1 (some 5) "s" true =
      search_similar_docs ⟨[["a"]], [[2]], some [[]]⟩ "q" 1 (some 5) "s" false := by
  exact ⟨rfl, rfl, rfl⟩

/-- Claim C9 (amended): a failure of the ticket-creation call is swallowed
by the catch-all handler — the caller observes exactly the same value as
when the call succeeds, for every input. -/
theorem ticket_failure_invisible (r : QueryResults) (q : String) (t : ℚ)
    (u : Option Int) (s : String) :
    search_similar_docs r q t u s true = search_similar_docs r q t u s false := by
  unfold search_similar_docs search_similar_docs_run
  by_cases hd : r.documents.isEmpty
  · simp [hd]
  · by_cases hm : metaOk r
    · by_cases hk : ((keptCandidates r t).map fun p => (⟨p.1⟩ : ProcessedDoc)).isEmpty
      · rcases u with _ | u <;> simp [hd, hm, hk]
      · simp [hd, hm, hk]
    · simp [hd, hm]

/-- Claim C10: with `user_id = None`, `search_similar_docs` never issues a
ticket-creation call, and when additionally no candidate passes the
threshold it returns `([], [])` — escalation happens only when a `user_id`
is supplied. -/
theorem no_user_no_ticket (r : QueryResults) (q : String) (t : ℚ)
    (s : String) (tf : Bool) :
    ((search_similar_docs r q t none s tf).2 = []) ∧
    (keptCandidates r t = [] → search_similar_docs r q t none s tf = ([], [])) := by
  unfold search_similar_docs search_similar_docs_run
  by_cases hd : r.documents.isEmpty
  · simp [hd]
  · by_cases hm : metaOk r
    · constructor
      · by_cases hk : ((keptCandidates r t).map fun p => (⟨p.1⟩ : ProcessedDoc)).isEmpty <;>
          simp [hd, hm, hk]
      · intro hk
        simp [hd, hm, hk]
    · simp [hd, hm]

/-- Witness for C10: one candidate at distance 2, threshold 1, no user —
result is `([], [])` with no ticket call. -/
theorem no_user_no_ticket_witness :
    ((search_similar_docs ⟨[["d"]], [[2]], some [[]]⟩ "q" 1 none "s" false).2 = []) ∧
    (keptCandidates ⟨[["d"]], [[2]], some [[]]⟩ 1 = [] →
      search_similar_docs ⟨[["d"]], [[2]], some [[]]⟩ "q" 1 none "s" false = ([], [])) :=
  no_user_no_ticket ⟨[["d"]], [[2]], some [[]]⟩ "q" 1 "s" false

end RagBot